import Mathlib

/-!
Verification of the retrieval-and-resilience core of the vs-buddy
repository, shallowly embedded in Lean 4.

Conventions of the embedding:
- JavaScript numbers are modelled as `Rat` (exact rational arithmetic) where
  fractional values occur, and as `Nat`/`Int` for counters and timestamps.
- `Date.now()` is passed in explicitly as a `now : Int` parameter; a single
  `execute` call uses one time value.
- Strings are `String`/`List Char`; the character classes of the JS regexes
  are modelled over ASCII (`\s` as the ASCII whitespace characters, `\w` as
  letters, digits and underscore, `[A-Z]` literally).
- Mutable module state (the circuit breaker fields, the similarity cache
  `Map`) becomes explicit state passed in and returned.
- Database queries are oracles: the row list a query would return is a
  parameter of the function that issues the query.
-/

namespace VsBuddy

/-- ASCII part of the JS regex class `\s` (space, tab, LF, CR, FF, VT). -/
def isWs (c : Char) : Bool :=
  c = ' ' || c = '\t' || c = '\n' || c = '\r' || c = '\x0b' || c = '\x0c'

/-- JS `Math.round`: half-up rounding, `round x = ⌊x + 1/2⌋`. -/
def jsRound (q : Rat) : Int := ⌊q + 1/2⌋

/-! ### Circuit breaker (src/lib/resilience/circuit-breaker.ts) -/

/-- The `CircuitState` enum. -/
inductive CircuitState where
  | CLOSED
  | OPEN
  | HALF_OPEN
deriving DecidableEq

/-- `CircuitBreakerOptions` with the defaults already resolved
(`failureThreshold`, `successThreshold`, `timeout`); the `onStateChange`
observer is pure logging and is not modelled. -/
structure CircuitBreakerOptions where
  failureThreshold : Nat
  successThreshold : Nat
  timeout : Int
deriving DecidableEq

/-- `DEFAULT_OPTIONS`: failureThreshold 5, successThreshold 2, timeout 60000. -/
def defaultCircuitBreakerOptions : CircuitBreakerOptions :=
  { failureThreshold := 5, successThreshold := 2, timeout := 60000 }

/-- The mutable fields of the `CircuitBreaker` class. -/
structure CircuitBreaker where
  state : CircuitState
  failureCount : Nat
  successCount : Nat
  nextAttempt : Int
deriving DecidableEq

/-- Constructor state: CLOSED, zero counters, `nextAttempt = Date.now()`. -/
def CircuitBreaker.init (now : Int) : CircuitBreaker :=
  { state := .CLOSED, failureCount := 0, successCount := 0, nextAttempt := now }

/-- `recordSuccess`: reset `failureCount`; in HALF_OPEN increment
`successCount` and close the circuit once it reaches `successThreshold`. -/
def recordSuccess (opts : CircuitBreakerOptions) (cb : CircuitBreaker) : CircuitBreaker :=
  let cb1 := { cb with failureCount := 0 }
  if cb1.state = .HALF_OPEN then
    let sc := cb1.successCount + 1
    if opts.successThreshold ≤ sc then
      { cb1 with successCount := 0, state := .CLOSED }
    else
      { cb1 with successCount := sc }
  else cb1

/-- `recordFailure`: increment `failureCount`, reset `successCount`; once
`failureCount` reaches `failureThreshold`, open the circuit and set
`nextAttempt = now + timeout`. -/
def recordFailure (opts : CircuitBreakerOptions) (cb : CircuitBreaker) (now : Int) :
    CircuitBreaker :=
  let cb1 := { cb with failureCount := cb.failureCount + 1, successCount := 0 }
  if opts.failureThreshold ≤ cb1.failureCount then
    { cb1 with state := .OPEN, nextAttempt := now + opts.timeout }
  else cb1

/-- `canAttempt`: CLOSED and HALF_OPEN admit the call; OPEN admits it (and
moves to HALF_OPEN) only once `now ≥ nextAttempt`.  Returns the admission
decision together with the possibly-updated breaker. -/
def canAttempt (cb : CircuitBreaker) (now : Int) : Bool × CircuitBreaker :=
  match cb.state with
  | .CLOSED => (true, cb)
  | .OPEN =>
    if cb.nextAttempt ≤ now then (true, { cb with state := .HALF_OPEN })
    else (false, cb)
  | .HALF_OPEN => (true, cb)

/-- Outcome of one `execute` call: `rejected` means the circuit-open error
was thrown and the wrapped function was never invoked; `succeeded` and
`failed` mean the wrapped function was invoked with that result. -/
inductive ExecResult where
  | rejected
  | succeeded
  | failed
deriving DecidableEq

/-- `execute`: gate through `canAttempt`, then run the wrapped function
(whose outcome is the boolean `fnOk`) and record the result. -/
def execute (opts : CircuitBreakerOptions) (cb : CircuitBreaker) (now : Int)
    (fnOk : Bool) : ExecResult × CircuitBreaker :=
  let gate := canAttempt cb now
  if gate.1 then
    if fnOk then (.succeeded, recordSuccess opts gate.2)
    else (.failed, recordFailure opts gate.2 now)
  else (.rejected, gate.2)

/-- Run a sequence of `execute` calls, each given as (time, fn outcome). -/
def runTrace (opts : CircuitBreakerOptions) (cb0 : CircuitBreaker)
    (events : List (Int × Bool)) : CircuitBreaker :=
  events.foldl (fun cb e => (execute opts cb e.1 e.2).2) cb0

/-- A reachable breaker state: five consecutive failures at t=0 open the
circuit (nextAttempt = 60000); at t=60000 a call is admitted, moving to
HALF_OPEN, and succeeds (one success, below successThreshold = 2). -/
def c1TraceBreaker : CircuitBreaker :=
  runTrace defaultCircuitBreakerOptions (CircuitBreaker.init 0)
    [(0, false), (0, false), (0, false), (0, false), (0, false), (60000, true)]

/-! ### Retry with backoff (src retry.ts: calculateDelay, withRetry) -/

/-- `calculateDelay(attempt, initialDelay, maxDelay, multiplier)`: the
`Math.random()` draw is passed in explicitly as `rand ∈ [0,1)`; `0.25` is
exactly `1/4`. -/
def calculateDelay (attempt : Nat) (initialDelay maxDelay multiplier rand : Rat) : Rat :=
  let exponentialDelay := initialDelay * multiplier ^ (attempt - 1)
  let cappedDelay := min exponentialDelay maxDelay
  let jitter := cappedDelay * (1/4) * (rand * 2 - 1)
  max 0 (cappedDelay + jitter)

/-- Result of `withRetry`: a returned value, the re-thrown last error, or
the unreachable fall-through after the loop when `maxAttempts = 0` (the JS
code would throw the undefined `lastError` there). -/
inductive RetryResult (E A : Type) where
  | ok (a : A)
  | err (e : E)
  | noAttempts
deriving DecidableEq

/-- The `for (attempt = 1; attempt <= maxAttempts; ...)` loop of `withRetry`.
The attempt function is abstracted as `fn : Nat → Except E A`, giving the
outcome of invocation number `attempt` (per-attempt timeouts are failures of
`fn`; the backoff sleep does not affect the result).  `fuel` counts the
remaining loop iterations (`maxAttempts - attempt + 1`) and only drives
termination.  The second component of the result is the number of times the
wrapped function was invoked. -/
def retryGo {E A : Type} (fn : Nat → Except E A) (shouldRetry : E → Nat → Bool)
    (maxAttempts : Nat) : Nat → Nat → RetryResult E A × Nat
  | _, 0 => (.noAttempts, 0)
  | attempt, fuel + 1 =>
    match fn attempt with
    | .ok a => (.ok a, 1)
    | .error e =>
      if attempt = maxAttempts ∨ ¬ shouldRetry e attempt then (.err e, 1)
      else
        let r := retryGo fn shouldRetry maxAttempts (attempt + 1) fuel
        (r.1, r.2 + 1)

/-- `withRetry(fn, options)` with resolved `maxAttempts` and `shouldRetry`;
returns the outcome and the number of invocations of `fn`. -/
def withRetry {E A : Type} (fn : Nat → Except E A) (shouldRetry : E → Nat → Bool)
    (maxAttempts : Nat) : RetryResult E A × Nat :=
  retryGo fn shouldRetry maxAttempts 1 maxAttempts

/-! ### Chunker (src/lib/rag/chunk.ts: splitTextIntoChunks) -/

/-- `replace(/\s+/g, ' ')`: each maximal whitespace run becomes one space.
The boolean tracks whether the previous character was whitespace. -/
def collapseWsAux : Bool → List Char → List Char
  | _, [] => []
  | prevWs, c :: rest =>
    if isWs c then
      if prevWs then collapseWsAux true rest
      else ' ' :: collapseWsAux true rest
    else c :: collapseWsAux false rest

/-- `replace(/\s+/g, ' ')` on a whole string. -/
def collapseWs (s : List Char) : List Char := collapseWsAux false s

/-- JS `String.prototype.trim`: strip whitespace from both ends. -/
def trimChars (s : List Char) : List Char :=
  ((s.dropWhile isWs).reverse.dropWhile isWs).reverse

/-- The normalization step of `splitTextIntoChunks`:
`text.replace(/\s+/g, ' ').trim()`. -/
def normalizeText (s : List Char) : List Char := trimChars (collapseWs s)

/-- The `chunkSize` / `chunkOverlap` configuration values consumed by the
chunker. -/
structure ChunkConfig where
  chunkSize : Nat
  chunkOverlap : Nat
deriving DecidableEq

/-- The configured values in src config: `chunkSize 500`, `chunkOverlap 50`. -/
def configChunk : ChunkConfig := ⟨500, 50⟩

/-- The character class `[.!?]` of the sentence-boundary regex. -/
def isSentencePunct (c : Char) : Bool := c = '.' || c = '!' || c = '?'

/-- The lookahead class `[A-Z]`. -/
def isUpperAZ (c : Char) : Bool := 'A' ≤ c && c ≤ 'Z'

/-- A match of the regex `[.!?]\s+(?=[A-Z])` starting at index `i` of `s`:
a sentence punctuation character followed by a nonempty whitespace run whose
next character is an ASCII capital; the matched text is the punctuation
plus the full run (the greedy `\s+` must consume the whole run, since a
shorter prefix would leave a whitespace character where the lookahead
demands a capital). -/
def sentenceMatchAt (s : List Char) (i : Nat) : Option (List Char) :=
  match s.get? i with
  | none => none
  | some c =>
    if isSentencePunct c then
      if 0 < ((s.drop (i + 1)).takeWhile isWs).length
          && (s.get? (i + 1 + ((s.drop (i + 1)).takeWhile isWs).length)).any isUpperAZ then
        some (c :: (s.drop (i + 1)).takeWhile isWs)
      else none
    else none

/-- `lastPart.match(/[.!?]\s+(?=[A-Z])/g)`: every match of the regex, in
order.  Matches of this pattern can never overlap (a match consists of one
punctuation character and whitespace, and every match starts with a
punctuation character), so global scanning finds exactly the matches at
every position. -/
def sentenceMatches (s : List Char) : List (List Char) :=
  (List.range s.length).filterMap (sentenceMatchAt s)

/-- JS `s.lastIndexOf(pat)` for a string pattern: the largest index at
which `pat` occurs as a substring, `none` when absent. -/
def lastIndexOfStr (s pat : List Char) : Option Nat :=
  (List.range (s.length + 1)).foldl
    (fun acc i => if (s.drop i).take pat.length = pat then some i else acc) none

/-- JS `s.lastIndexOf(c, fromIdx)` for a single character: the largest
index `≤ fromIdx` at which `c` occurs, `none` when absent. -/
def lastIndexOfChar (s : List Char) (c : Char) (fromIdx : Nat) : Option Nat :=
  (List.range (min fromIdx (s.length - 1) + 1)).foldl
    (fun acc i => if s.get? i = some c then some i else acc) none

/-- The boundary-adjustment of one loop iteration of `splitTextIntoChunks`:
start from `end = start + chunkSize`; if the window does not reach the end
of the text, prefer the last sentence boundary in the final 100 characters
(located by `lastIndexOf` of the last matched string, accepted only at a
positive offset), else fall back to the last space at or before `end`
(accepted only strictly after `start`).  In JS `end - 100` can be negative;
`Math.max(start, end - 100)` then yields `start`, exactly as the truncated
Nat subtraction does here. -/
def computeEnd (cfg : ChunkConfig) (s : List Char) (start : Nat) : Nat :=
  let e := start + cfg.chunkSize
  if e < s.length then
    let base := max start (e - 100)
    let lastPart := (s.drop base).take (e - base)
    match (sentenceMatches lastPart).getLast? with
    | some m =>
      match lastIndexOfStr lastPart m with
      | some lse => if 0 < lse then base + lse + 2 else e
      | none => e
    | none =>
      match lastIndexOfChar s ' ' e with
      | some ls => if start < ls then ls else e
      | none => e
  else e

/-- The `while (start < cleanedText.length)` loop of `splitTextIntoChunks`:
push the trimmed window when nonempty and advance `start` to
`end - chunkOverlap` when that makes progress, else to `end`.  The loop
variable `start` strictly increases whenever `chunkSize ≥ 1`, so fuel
`s.length + 1` never runs out on the inputs the function is called with. -/
def splitLoop (cfg : ChunkConfig) (s : List Char) : Nat → Nat → List (List Char)
  | _, 0 => []
  | start, fuel + 1 =>
    if start < s.length then
      let e := computeEnd cfg s start
      let chunk := trimChars ((s.drop start).take (e - start))
      let nextStart := e - cfg.chunkOverlap
      let start2 := if start < nextStart then nextStart else e
      let rest := splitLoop cfg s start2 fuel
      if 0 < chunk.length then chunk :: rest else rest
    else []

/-- `splitTextIntoChunks(text)`: normalize, return the short text as a
single chunk, otherwise run the sliding-window loop. -/
def splitTextIntoChunks (cfg : ChunkConfig) (text : List Char) : List (List Char) :=
  let cleanedText := normalizeText text
  if cleanedText.length ≤ cfg.chunkSize then [cleanedText]
  else splitLoop cfg cleanedText 0 (cleanedText.length + 1)

/-! ### Search results, deduplication (src search.ts: deduplicateChunks) -/

/-- The `ChunkSearchResult` projection produced by retrieval. -/
structure ChunkSearchResult where
  id : String
  content : String
  similarity : Rat
  documentId : String
  documentTitle : String
deriving DecidableEq

/-- The dedup signature of a chunk:
`content.toLowerCase().replace(/\s+/g, ' ').trim().slice(0, 100)`. -/
def signature (content : String) : List Char :=
  (trimChars (collapseWs (content.data.map Char.toLower))).take 100

/-- The `chunks.filter(...)` of `deduplicateChunks` with its mutable `seen`
set made explicit (the set is modelled as the list of signatures added so
far; only signatures of kept chunks are inserted, exactly as in the
source, where a dropped chunk's signature is already present). -/
def dedupGo (seen : List (List Char)) : List ChunkSearchResult → List ChunkSearchResult
  | [] => []
  | c :: rest =>
    if signature c.content ∈ seen then dedupGo seen rest
    else c :: dedupGo (signature c.content :: seen) rest

/-- `deduplicateChunks(chunks)`. -/
def deduplicateChunks (chunks : List ChunkSearchResult) : List ChunkSearchResult :=
  dedupGo [] chunks

/-- Modelled from the spec (refinement side of C7, not from the source): a
chunk is kept exactly when its signature differs from the signature of
every earlier chunk of the input list; kept chunks stay in order. -/
def dedupSpecGo (earlier : List ChunkSearchResult) :
    List ChunkSearchResult → List ChunkSearchResult
  | [] => []
  | c :: rest =>
    if ∀ p ∈ earlier, signature p.content ≠ signature c.content then
      c :: dedupSpecGo (earlier ++ [c]) rest
    else dedupSpecGo (earlier ++ [c]) rest

/-- The spec-side deduplication applied to a whole list. -/
def deduplicateChunksSpec (chunks : List ChunkSearchResult) : List ChunkSearchResult :=
  dedupSpecGo [] chunks

/-! ### Similarity cache (src/lib/rag/cache.ts) -/

/-- A cache key: the string join of the rounded leading dimensions is
modelled by the list of rounded values itself (the comma join of integer
renderings is injective, so the two key spaces are isomorphic; the empty
embedding gives the empty key, which is JS falsy as the empty string). -/
abbrev CacheKey := List Int

/-- A `CacheEntry`: results plus insertion timestamp. -/
structure CacheEntry where
  results : List ChunkSearchResult
  timestamp : Int
deriving DecidableEq

/-- The module-level `Map`, as an insertion-ordered association list with
distinct keys (`Map` iteration order is insertion order). -/
structure CacheState where
  entries : List (CacheKey × CacheEntry)
deriving DecidableEq

/-- `CACHE_TTL_MS = 5 * 60 * 1000`. -/
def CACHE_TTL_MS : Int := 5 * 60 * 1000

/-- `MAX_CACHE_SIZE = 100`. -/
def MAX_CACHE_SIZE : Nat := 100

/-- `getCacheKey(embedding)`: first 16 dimensions, each rounded via
`Math.round(v * 1000)`. -/
def getCacheKey (embedding : List Rat) : CacheKey :=
  (embedding.take 16).map (fun v => jsRound (v * 1000))

/-- JS `Map.get`. -/
def mapGet (m : List (CacheKey × CacheEntry)) (k : CacheKey) : Option CacheEntry :=
  (m.find? (fun p => p.1 = k)).map Prod.snd

/-- JS `Map.set`: an existing key keeps its insertion position and gets the
new value; a new key is appended at the end. -/
def mapSet (m : List (CacheKey × CacheEntry)) (k : CacheKey) (v : CacheEntry) :
    List (CacheKey × CacheEntry) :=
  if m.any (fun p => p.1 = k) then m.map (fun p => if p.1 = k then (k, v) else p)
  else m ++ [(k, v)]

/-- JS `Map.delete`. -/
def mapDelete (m : List (CacheKey × CacheEntry)) (k : CacheKey) :
    List (CacheKey × CacheEntry) :=
  m.filter (fun p => ¬ p.1 = k)

/-- `getCachedResults(embedding)`: miss on absent key; an entry older than
the TTL (strictly) is deleted and treated as a miss; otherwise the stored
results are returned. -/
def getCachedResults (now : Int) (embedding : List Rat) (st : CacheState) :
    Option (List ChunkSearchResult) × CacheState :=
  match mapGet st.entries (getCacheKey embedding) with
  | none => (none, st)
  | some entry =>
    if CACHE_TTL_MS < now - entry.timestamp then
      (none, ⟨mapDelete st.entries (getCacheKey embedding)⟩)
    else (some entry.results, st)

/-- `setCachedResults(embedding, results)`: at capacity, delete the first
iteration-order key — but only when that key string is truthy, i.e.
nonempty (`if (oldestKey) cache.delete(oldestKey)`); then insert. -/
def setCachedResults (now : Int) (embedding : List Rat)
    (results : List ChunkSearchResult) (st : CacheState) : CacheState :=
  let st1 :=
    if MAX_CACHE_SIZE ≤ st.entries.length then
      match st.entries.head? with
      | some (k, _) => if k = [] then st else (⟨mapDelete st.entries k⟩ : CacheState)
      | none => st
    else st
  ⟨mapSet st1.entries (getCacheKey embedding) ⟨results, now⟩⟩

/-- A full cache whose earliest-inserted entry has the empty key (the key
of the empty embedding): the empty key plus 99 distinct one-element keys. -/
def c8FullCache : CacheState :=
  ⟨([], ⟨[], 0⟩) :: (List.range 99).map (fun i => ([(i : Int)], ⟨[], 0⟩))⟩

/-- A full cache with 100 distinct nonempty keys. -/
def c8FullCache2 : CacheState :=
  ⟨(List.range 100).map (fun i => ([(i : Int)], ⟨[], 0⟩))⟩

/-! ### Retrieval engine (src search.ts: searchRelevantChunks,
searchRelevantChunksHybrid) -/

/-- `SearchOptions` with the config defaults already resolved by the
caller-side destructuring. -/
structure SearchOptions where
  topK : Nat
  minSimilarity : Rat
  tags : Option (List String)
  documentIds : Option (List String)
  useCache : Bool

/-- JS `!xs?.length`: the option is absent or the list empty. -/
def optListEmpty {α : Type} (o : Option (List α)) : Bool :=
  match o with
  | none => true
  | some l => l.isEmpty

/-- The `results.map(r => ({...}))` row-to-chunk conversion; the SQL query
itself is an oracle, its returned rows are a parameter. -/
def rowsToChunks (rows : List ChunkSearchResult) : List ChunkSearchResult :=
  rows.map (fun r => ⟨r.id, r.content, r.similarity, r.documentId, r.documentTitle⟩)

/-- `searchRelevantChunks(queryEmbedding, options)` over the row oracle
`dbRows`: consult the cache only when caching is enabled and no tag or
document filter is present; on a hit return up to `topK` cached results;
otherwise deduplicate the fetched rows, truncate to `topK`, and populate
the cache when eligible. -/
def searchRelevantChunks (dbRows : List ChunkSearchResult) (now : Int)
    (queryEmbedding : List Rat) (opts : SearchOptions) (st : CacheState) :
    List ChunkSearchResult × CacheState :=
  let cacheEligible := opts.useCache && optListEmpty opts.tags && optListEmpty opts.documentIds
  let cachedStep := if cacheEligible then getCachedResults now queryEmbedding st else (none, st)
  match cachedStep with
  | (some cached, st1) => (cached.take opts.topK, st1)
  | (none, st1) =>
    let finalResults := (deduplicateChunks (rowsToChunks dbRows)).take opts.topK
    if cacheEligible then (finalResults, setCachedResults now queryEmbedding finalResults st1)
    else (finalResults, st1)

/-- The stop-word list of `extractSearchTerms`, in source order (the source
uses a `Set`; the duplicate "as" is harmless either way). -/
def stopWords : List (List Char) :=
  (["a", "an", "the", "is", "are", "was", "were", "be", "been", "being",
    "have", "has", "had", "do", "does", "did", "will", "would", "could",
    "should", "may", "might", "must", "shall", "can", "need", "dare",
    "to", "of", "in", "for", "on", "with", "at", "by", "from", "as",
    "into", "through", "during", "before", "after", "above", "below",
    "between", "under", "again", "further", "then", "once", "here",
    "there", "when", "where", "why", "how", "all", "each", "few",
    "more", "most", "other", "some", "such", "no", "nor", "not",
    "only", "own", "same", "so", "than", "too", "very", "just",
    "and", "but", "if", "or", "because", "as", "until", "while",
    "what", "which", "who", "whom", "this", "that", "these", "those",
    "am", "it", "its", "i", "me", "my", "myself", "we", "our", "ours",
    "you", "your", "yours", "he", "him", "his", "she", "her", "hers",
    "they", "them", "their", "theirs"] : List String).map String.toList

/-- The JS regex class `\w` (ASCII): letters, digits, underscore. -/
def isWordChar (c : Char) : Bool := c.isAlpha || c.isDigit || c = '_'

/-- JS `split(/\s+/)`: split on maximal whitespace runs; a leading or
trailing run contributes an empty token, exactly as in JS. -/
def splitWsGo : List Char → List Char → Bool → List (List Char)
  | [], cur, _ => [cur.reverse]
  | c :: rest, cur, inRun =>
    if isWs c then
      if inRun then splitWsGo rest [] true
      else cur.reverse :: splitWsGo rest [] true
    else splitWsGo rest (c :: cur) false

/-- `split(/\s+/)` on a whole string. -/
def splitWs (s : List Char) : List (List Char) := splitWsGo s [] false

/-- `extractSearchTerms(query)`: lowercase, replace non-word non-space
characters by a space, split on whitespace, drop tokens of length ≤ 2 and
stop words, join the rest with " | " (empty result when no token
survives). -/
def extractSearchTerms (query : List Char) : List Char :=
  let replaced := (query.map Char.toLower).map
    (fun c => if !(isWordChar c || isWs c) then ' ' else c)
  let words := (splitWs replaced).filter
    (fun w => 2 < w.length && !(stopWords.contains w))
  if words.isEmpty then [] else List.intercalate [' ', '|', ' '] words

/-- A row of the hybrid SQL query (oracle). -/
structure HybridRow where
  id : String
  content : String
  documentId : String
  documentTitle : String
  vectorScore : Rat
  keywordScore : Rat
deriving DecidableEq

/-- `HybridSearchOptions extends SearchOptions` with resolved weights. -/
structure HybridSearchOptions extends SearchOptions where
  vectorWeight : Rat
  keywordWeight : Rat

/-- `searchRelevantChunksHybrid(queryEmbedding, queryText, options)`:
fall back to pure vector search (which may use the cache) when no usable
search terms remain; otherwise score the hybrid rows, deduplicate,
truncate — without ever touching the cache. -/
def searchRelevantChunksHybrid (hybridRows : List HybridRow)
    (vectorRows : List ChunkSearchResult) (now : Int) (queryEmbedding : List Rat)
    (queryText : List Char) (opts : HybridSearchOptions) (st : CacheState) :
    List ChunkSearchResult × CacheState :=
  let searchTerms := extractSearchTerms queryText
  if searchTerms = [] then
    searchRelevantChunks vectorRows now queryEmbedding opts.toSearchOptions st
  else
    let chunks := hybridRows.map (fun r =>
      (⟨r.id, r.content, r.vectorScore * opts.vectorWeight
          + r.keywordScore * opts.keywordWeight,
        r.documentId, r.documentTitle⟩ : ChunkSearchResult))
    ((deduplicateChunks chunks).take opts.topK, st)

/-! ### Prompt builder (src/lib/rag/prompt.ts: buildPrompt) -/

/-- The message roles. -/
inductive Role where
  | system
  | user
  | assistant
deriving DecidableEq

/-- A stored `ChatMessage`. -/
structure ChatMessage where
  role : Role
  content : String
deriving DecidableEq

/-- An outgoing `LLMMessage`. -/
structure LLMMessage where
  role : Role
  content : String
deriving DecidableEq

/-- `DEFAULT_SYSTEM_PROMPT`. -/
def DEFAULT_SYSTEM_PROMPT : String :=
  "You are VS Buddy, an internal assistant. Your primary job is to answer questions using the knowledge base provided to you. Be helpful, concise, and practical. Always check the provided context first before answering."

/-- `RAG_INSTRUCTIONS` (the template literal, newlines included). -/
def RAG_INSTRUCTIONS : String :=
  "\nIMPORTANT INSTRUCTIONS:\n- Use ONLY the provided context for specific facts and information.\n- Each context chunk shows its source document and relevance score.\n- Prefer higher relevance chunks when information conflicts.\n- If the answer is not in the context, clearly say \"I don\x27t have that information in my knowledge base.\"\n- Be concise and practical. No corporate fluff.\n- If you\x27re unsure, say so rather than making things up.\n"

/-- `NO_CONTEXT_INSTRUCTIONS`. -/
def NO_CONTEXT_INSTRUCTIONS : String :=
  "\nNOTE: No relevant information was found in the knowledge base for this query.\n- If this is a general question you can answer from your training, do so.\n- If it requires specific company/internal knowledge, clearly state that you don\x27t have that information.\n"

/-- `systemPrompt || DEFAULT_SYSTEM_PROMPT`: JS `||` also treats the empty
string as falsy. -/
def resolveSystemPrompt : Option String → String
  | none => DEFAULT_SYSTEM_PROMPT
  | some s => if s = "" then DEFAULT_SYSTEM_PROMPT else s

/-- One attributed context block of `formatContextWithSources`:
index, document title, `Math.round(similarity * 100)` percent, content. -/
def contextBlock (i : Nat) (c : ChunkSearchResult) : String :=
  "[" ++ toString (i + 1) ++ ". " ++ c.documentTitle ++ " | "
    ++ toString (jsRound (c.similarity * 100)) ++ "% match]\n" ++ c.content

/-- `formatContextWithSources(chunks)`: the blocks joined by the visible
separator. -/
def formatContextWithSources (chunks : List ChunkSearchResult) : String :=
  String.intercalate "\n\n---\n\n" (chunks.enum.map (fun p => contextBlock p.1 p.2))

/-- `buildPrompt({systemPrompt, contextChunks, messages, latestUserMessage})`:
one system message (with context blocks or the no-context fallback), the
prior turns restricted to user/assistant roles, the latest user message
appended last. -/
def buildPrompt (systemPrompt : Option String) (contextChunks : List ChunkSearchResult)
    (messages : List ChatMessage) (latestUserMessage : String) : List LLMMessage :=
  let base := resolveSystemPrompt systemPrompt
  let systemContent :=
    if 0 < contextChunks.length then
      base ++ "\n\n" ++ RAG_INSTRUCTIONS ++ "\n\nCONTEXT FROM KNOWLEDGE BASE:\n---\n"
        ++ formatContextWithSources contextChunks ++ "\n---"
    else base ++ "\n\n" ++ NO_CONTEXT_INSTRUCTIONS
  ⟨.system, systemContent⟩ ::
    ((messages.filter (fun m => m.role = .user || m.role = .assistant)).map
      (fun m => (⟨m.role, m.content⟩ : LLMMessage)) ++ [⟨.user, latestUserMessage⟩])

/-! ## Theorems -/

/-- C1 counterexample: a reachable HALF_OPEN state in which one success
(below `successThreshold`) has already occurred.  Contrary to the claim, a
single failed `execute` does NOT transition the breaker back to OPEN: the
success reset `failureCount` to 0, so the failure leaves the state at
HALF_OPEN with `nextAttemptTime` untouched. -/
theorem c1_counterexample :
    c1TraceBreaker.state = CircuitState.HALF_OPEN ∧
    c1TraceBreaker.successCount = 1 ∧
    (execute defaultCircuitBreakerOptions c1TraceBreaker 60001 false).2.state =
      CircuitState.HALF_OPEN ∧
    ¬ (execute defaultCircuitBreakerOptions c1TraceBreaker 60001 false).2.state =
      CircuitState.OPEN := by decide

/-- C1 (amended): in HALF_OPEN, a single failed `execute` transitions back
to OPEN with `nextAttemptTime = now + timeout` exactly when the incremented
`failureCount` reaches `failureThreshold` — which is the case when no
success has occurred since entering HALF_OPEN (the counter keeps its value
from the OPEN episode), but not after a success in HALF_OPEN, which resets
`failureCount` to 0: then a single failure leaves the breaker in HALF_OPEN
with `nextAttemptTime` unchanged. -/
theorem c1_half_open_failure (opts : CircuitBreakerOptions) (cb : CircuitBreaker)
    (now : Int) (h : cb.state = .HALF_OPEN) :
    (opts.failureThreshold ≤ cb.failureCount + 1 →
      (execute opts cb now false).2.state = .OPEN ∧
      (execute opts cb now false).2.nextAttempt = now + opts.timeout) ∧
    (cb.failureCount + 1 < opts.failureThreshold →
      (execute opts cb now false).2.state = .HALF_OPEN ∧
      (execute opts cb now false).2.nextAttempt = cb.nextAttempt) := by
  constructor
  · intro hth
    simp [execute, canAttempt, h, recordFailure, hth]
  · intro hth
    simp [execute, canAttempt, h, recordFailure, Nat.not_le.mpr hth]

/-- C1 witness: concrete application of the amended theorem; in HALF_OPEN
with `failureCount = 4` (threshold 5), a failure reopens the circuit. -/
theorem c1_half_open_failure_witness :
    (execute defaultCircuitBreakerOptions ⟨.HALF_OPEN, 4, 0, 60000⟩ 70000 false).2.state =
      CircuitState.OPEN ∧
    (execute defaultCircuitBreakerOptions ⟨.HALF_OPEN, 4, 0, 60000⟩ 70000 false).2.nextAttempt =
      70000 + 60000 :=
  (c1_half_open_failure defaultCircuitBreakerOptions ⟨.HALF_OPEN, 4, 0, 60000⟩ 70000 rfl).1
    (by decide)

/-- C4: while OPEN and before `nextAttemptTime`, `execute` rejects with the
circuit-open error, does not invoke the wrapped function, and leaves the
breaker state untouched; at or after `nextAttemptTime`, the breaker moves
OPEN → HALF_OPEN inside `canAttempt` (lazily, on the call itself) and the
wrapped function is invoked (the outcome is not `rejected`). -/
theorem c4_open_gating (opts : CircuitBreakerOptions) (cb : CircuitBreaker)
    (now : Int) (fnOk : Bool) :
    (cb.state = .OPEN → now < cb.nextAttempt →
      execute opts cb now fnOk = (.rejected, cb)) ∧
    (cb.state = .OPEN → cb.nextAttempt ≤ now →
      (canAttempt cb now).2.state = .HALF_OPEN ∧
      (execute opts cb now fnOk).1 ≠ .rejected) := by
  constructor
  · intro hs ht
    simp [execute, canAttempt, hs, Int.not_le.mpr ht]
  · intro hs ht
    constructor
    · simp [canAttempt, hs, ht]
    · cases fnOk <;> simp [execute, canAttempt, hs, ht]

/-- C4 witness: concrete OPEN breaker with `nextAttemptTime = 60000`; a call
at t=100 is rejected without state change, a call at t=60000 is admitted
through the HALF_OPEN transition. -/
theorem c4_open_gating_witness :
    execute defaultCircuitBreakerOptions ⟨.OPEN, 5, 0, 60000⟩ 100 true =
      (.rejected, ⟨.OPEN, 5, 0, 60000⟩) ∧
    ((canAttempt ⟨.OPEN, 5, 0, 60000⟩ 60000).2.state = .HALF_OPEN ∧
      (execute defaultCircuitBreakerOptions ⟨.OPEN, 5, 0, 60000⟩ 60000 true).1 ≠ .rejected) :=
  ⟨(c4_open_gating defaultCircuitBreakerOptions ⟨.OPEN, 5, 0, 60000⟩ 100 true).1 rfl
      (by decide),
    (c4_open_gating defaultCircuitBreakerOptions ⟨.OPEN, 5, 0, 60000⟩ 60000 true).2 rfl
      (by decide)⟩

/-- C2 counterexample: with `initialDelay = maxDelay = 1000`, multiplier 2,
attempt 1 and a jitter draw of `rand = 3/4`, the computed delay is 1125,
which exceeds `maxDelayMs = 1000` — the jitter is applied after the
`min(..., maxDelay)` cap, so the claimed upper bound `maxDelayMs` fails. -/
theorem c2_counterexample :
    (0 : Rat) ≤ 3/4 ∧ (3/4 : Rat) < 1 ∧
    calculateDelay 1 1000 1000 2 (3/4) = 1125 ∧
    ¬ calculateDelay 1 1000 1000 2 (3/4) ≤ 1000 := by
  refine ⟨by norm_num, by norm_num, ?_, ?_⟩ <;> norm_num [calculateDelay]

/-- C2 (amended): the delay equals
`max 0 (min(initialDelay * multiplier^(i-1), maxDelay)` jittered by ±25%),
as claimed; the correct upper bound is `(5/4) * maxDelayMs` (not
`maxDelayMs`): the ±25% jitter is applied to the already-capped delay. -/
theorem c2_delay_formula_and_bound (attempt : Nat)
    (initialDelay maxDelay multiplier rand : Rat) :
    calculateDelay attempt initialDelay maxDelay multiplier rand =
      max 0 (min (initialDelay * multiplier ^ (attempt - 1)) maxDelay
        + min (initialDelay * multiplier ^ (attempt - 1)) maxDelay * (1/4) * (rand * 2 - 1)) ∧
    (0 ≤ rand → rand < 1 → 0 ≤ initialDelay → 0 ≤ maxDelay → 0 ≤ multiplier →
      calculateDelay attempt initialDelay maxDelay multiplier rand ≤ maxDelay * (5/4)) := by
  constructor
  · rfl
  · intro h0 h1 hi hm hmu
    have he : 0 ≤ initialDelay * multiplier ^ (attempt - 1) :=
      mul_nonneg hi (pow_nonneg hmu _)
    have hc0 : 0 ≤ min (initialDelay * multiplier ^ (attempt - 1)) maxDelay :=
      le_min he hm
    have hcm : min (initialDelay * multiplier ^ (attempt - 1)) maxDelay ≤ maxDelay :=
      min_le_right _ _
    simp only [calculateDelay]
    apply max_le
    · nlinarith
    · nlinarith [mul_nonneg hc0 (le_of_lt (sub_pos.mpr h1))]

/-- C2 witness: the default configuration (initialDelay 1000, maxDelay
10000, multiplier 2) at attempt 5 with jitter draw 1/2 stays within the
amended bound. -/
theorem c2_delay_witness :
    (0 : Rat) ≤ 1/2 ∧ (1/2 : Rat) < 1 ∧ (0 : Rat) ≤ 1000 ∧ (0 : Rat) ≤ 10000 ∧
    (0 : Rat) ≤ 2 ∧
    calculateDelay 5 1000 10000 2 (1/2) ≤ 10000 * (5/4) :=
  ⟨by norm_num, by norm_num, by norm_num, by norm_num, by norm_num,
    (c2_delay_formula_and_bound 5 1000 10000 2 (1/2)).2 (by norm_num) (by norm_num)
      (by norm_num) (by norm_num) (by norm_num)⟩

/-- Helper for C5: when every invocation fails with a retryable error, the
retry loop runs all remaining attempts and re-throws the last error. -/
theorem retryGo_all_fail {E A : Type} (fn : Nat → Except E A) (sr : E → Nat → Bool)
    (es : Nat → E) (maxAttempts : Nat)
    (hfn : ∀ i, fn i = .error (es i)) (hsr : ∀ i, sr (es i) i = true) :
    ∀ fuel attempt, attempt + fuel = maxAttempts + 1 → 1 ≤ fuel →
      retryGo fn sr maxAttempts attempt fuel = (.err (es maxAttempts), fuel) := by
  intro fuel
  induction fuel with
  | zero => intro attempt _ h; omega
  | succ f ih =>
    intro attempt hsum _
    rw [retryGo, hfn attempt]
    by_cases hlast : attempt = maxAttempts
    · have hf0 : f = 0 := by omega
      subst hlast hf0
      simp
    · have hf1 : 1 ≤ f := by omega
      have hrec := ih (attempt + 1) (by omega) hf1
      simp [hlast, hsr attempt, hrec]

/-- C5: a function failing on its first two invocations with retryable
errors and succeeding on the third, run with `maxAttempts = 3`, returns the
success value after exactly 3 invocations; a function that always fails
with retryable errors, run with `maxAttempts = N ≥ 1`, is invoked exactly
N times and the last error is re-thrown unchanged (no wrapping). -/
theorem c5_retry_counts {E A : Type} (fn : Nat → Except E A) (sr : E → Nat → Bool) :
    (∀ (e1 e2 : E) (v : A), fn 1 = .error e1 → fn 2 = .error e2 → fn 3 = .ok v →
      sr e1 1 = true → sr e2 2 = true →
      withRetry fn sr 3 = (.ok v, 3)) ∧
    (∀ (es : Nat → E) (N : Nat), 1 ≤ N →
      (∀ i, fn i = .error (es i)) → (∀ i, sr (es i) i = true) →
      withRetry fn sr N = (.err (es N), N)) := by
  constructor
  · intro e1 e2 v h1 h2 h3 hs1 hs2
    simp [withRetry, retryGo, h1, h2, h3, hs1, hs2]
  · intro es N hN hfn hsr
    exact retryGo_all_fail fn sr es N hfn hsr N 1 (by omega) hN

/-- C5 witness: a concrete fail-fail-succeed function with `maxAttempts = 3`
returns the value in 3 invocations; a concrete always-failing function with
`maxAttempts = 2` is invoked twice and re-throws its last error. -/
theorem c5_retry_counts_witness :
    withRetry (fun i => if i ≤ 2 then (Except.error i : Except Nat String) else .ok "v")
      (fun _ _ => true) 3 = (.ok "v", 3) ∧
    withRetry (fun i => (Except.error i : Except Nat String)) (fun _ _ => true) 2 =
      (.err 2, 2) :=
  ⟨(c5_retry_counts _ _).1 1 2 "v" rfl rfl rfl rfl rfl,
    (c5_retry_counts _ _).2 (fun i => i) 2 (by omega) (fun _ => rfl) (fun _ => rfl)⟩

/-- Helper: a `foldl` that notes the last index satisfying `p` returns the
initial accumulator or an index from the list that satisfies `p`. -/
theorem foldl_lastIdx (p : Nat → Prop) [DecidablePred p] (l : List Nat) (acc : Option Nat) :
    l.foldl (fun a i => if p i then some i else a) acc = acc ∨
    ∃ i ∈ l, p i ∧ l.foldl (fun a i => if p i then some i else a) acc = some i := by
  induction l generalizing acc with
  | nil => left; rfl
  | cons x xs ih =>
    simp only [List.foldl_cons]
    rcases ih (if p x then some x else acc) with h | ⟨i, hi, hp, he⟩
    · by_cases hx : p x
      · right
        exact ⟨x, List.mem_cons_self x xs, hx, by rw [h, if_pos hx]⟩
      · left
        rw [h, if_neg hx]
    · right
      exact ⟨i, List.mem_cons_of_mem x hi, hp, he⟩

/-- Helper: a found substring occurrence fits inside the string. -/
theorem lastIndexOfStr_le (s pat : List Char) (i : Nat)
    (h : lastIndexOfStr s pat = some i) : i + pat.length ≤ s.length := by
  unfold lastIndexOfStr at h
  rcases foldl_lastIdx (fun k => (s.drop k).take pat.length = pat)
      (List.range (s.length + 1)) none with h0 | ⟨j, hj, hp, he⟩
  · rw [h0] at h; exact absurd h (by simp)
  · rw [he] at h
    have hij : j = i := by injection h
    have hlen : ((s.drop j).take pat.length).length = pat.length := by rw [hp]
    rw [List.length_take, List.length_drop] at hlen
    have := List.mem_range.mp hj
    omega

/-- Helper: a found character occurrence is at or before the search start. -/
theorem lastIndexOfChar_le (s : List Char) (c : Char) (fromIdx : Nat) (i : Nat)
    (h : lastIndexOfChar s c fromIdx = some i) : i ≤ fromIdx := by
  unfold lastIndexOfChar at h
  rcases foldl_lastIdx (fun k => s.get? k = some c)
      (List.range (min fromIdx (s.length - 1) + 1)) none with h0 | ⟨j, hj, _, he⟩
  · rw [h0] at h; exact absurd h (by simp)
  · rw [he] at h
    have hij : j = i := by injection h
    have := List.mem_range.mp hj
    omega

/-- Helper: every sentence-boundary match has length at least 2 (the
punctuation character plus a nonempty whitespace run). -/
theorem sentenceMatches_two_le (s : List Char) (m : List Char)
    (h : m ∈ sentenceMatches s) : 2 ≤ m.length := by
  unfold sentenceMatches at h
  rcases List.mem_filterMap.mp h with ⟨i, _, hi⟩
  unfold sentenceMatchAt at hi
  split at hi
  · exact absurd hi (by simp)
  · split at hi
    · split at hi
      next hcond =>
        obtain rfl : _ :: _ = m := by injection hi
        have hrun := of_decide_eq_true (Bool.and_elim_left hcond)
        simp only [List.length_cons]
        omega
      next => exact absurd hi (by simp)
    · exact absurd hi (by simp)

/-- Helper: the last element of a list is a member. -/
theorem getLast?_mem' {α : Type} (l : List α) (a : α) (h : l.getLast? = some a) :
    a ∈ l := by
  induction l with
  | nil => simp at h
  | cons x xs ih =>
    cases xs with
    | nil =>
      simp [List.getLast?] at h
      simp [h]
    | cons y ys =>
      rw [List.getLast?_cons_cons] at h
      exact List.mem_cons_of_mem x (ih h)

/-- Helper: the boundary adjustment never moves the window end past
`start + chunkSize`: a sentence boundary is re-anchored inside the last
100 characters of the window, and a word boundary lies at or before the
original end. -/
theorem computeEnd_le (cfg : ChunkConfig) (s : List Char) (start : Nat) :
    computeEnd cfg s start ≤ start + cfg.chunkSize := by
  unfold computeEnd
  by_cases hlen : start + cfg.chunkSize < s.length
  · simp only [if_pos hlen]
    have hlp_len :
        ((s.drop (max start (start + cfg.chunkSize - 100))).take
          (start + cfg.chunkSize - max start (start + cfg.chunkSize - 100))).length ≤
        start + cfg.chunkSize - max start (start + cfg.chunkSize - 100) := by
      rw [List.length_take]; exact min_le_left _ _
    rcases hm : (sentenceMatches ((s.drop (max start (start + cfg.chunkSize - 100))).take
        (start + cfg.chunkSize - max start (start + cfg.chunkSize - 100)))).getLast?
        with _ | m
    · simp only [hm]
      rcases hls : lastIndexOfChar s ' ' (start + cfg.chunkSize) with _ | ls
      · simp
      · have hle := lastIndexOfChar_le s ' ' _ ls hls
        by_cases hgt : start < ls
        · simp [hgt]; omega
        · simp [hgt]
    · simp only [hm]
      have hmem := getLast?_mem' _ _ hm
      have hm2 := sentenceMatches_two_le _ m hmem
      rcases hlse : lastIndexOfStr ((s.drop (max start (start + cfg.chunkSize - 100))).take
          (start + cfg.chunkSize - max start (start + cfg.chunkSize - 100))) m with _ | lse
      · simp
      · have hle := lastIndexOfStr_le _ _ _ hlse
        by_cases hpos : 0 < lse
        · simp only [if_pos hpos]
          have hb : max start (start + cfg.chunkSize - 100) ≤ start + cfg.chunkSize := by
            apply max_le <;> omega
          omega
        · simp [hpos]
  · simp [if_neg hlen]

/-- Helper: `dropWhile` never lengthens a list. -/
theorem length_dropWhile_le' {α : Type} (p : α → Bool) (l : List α) :
    (l.dropWhile p).length ≤ l.length := by
  induction l with
  | nil => simp
  | cons x xs ih =>
    rw [List.dropWhile_cons]
    by_cases hx : p x = true
    · rw [if_pos hx]
      exact Nat.le_trans ih (Nat.le_succ _)
    · rw [if_neg hx]

/-- Helper: trimming never lengthens a string. -/
theorem trimChars_length_le (s : List Char) : (trimChars s).length ≤ s.length := by
  unfold trimChars
  calc ((s.dropWhile isWs).reverse.dropWhile isWs).reverse.length
      = ((s.dropWhile isWs).reverse.dropWhile isWs).length := List.length_reverse _
    _ ≤ (s.dropWhile isWs).reverse.length := length_dropWhile_le' _ _
    _ = (s.dropWhile isWs).length := List.length_reverse _
    _ ≤ s.length := length_dropWhile_le' _ _

/-- Helper: every chunk produced by the sliding-window loop is at most
`chunkSize` characters long and nonempty (the loop only pushes windows
whose trimmed length is positive). -/
theorem splitLoop_chunk_facts (cfg : ChunkConfig) (s : List Char) :
    ∀ fuel start c, c ∈ splitLoop cfg s start fuel →
      c.length ≤ cfg.chunkSize ∧ 0 < c.length := by
  intro fuel
  induction fuel with
  | zero => intro start c hc; simp [splitLoop] at hc
  | succ f ih =>
    intro start c hc
    rw [splitLoop] at hc
    by_cases hs : start < s.length
    · rw [if_pos hs] at hc
      simp only at hc
      by_cases hpos : 0 < (trimChars ((s.drop start).take (computeEnd cfg s start - start))).length
      · rw [if_pos hpos] at hc
        rcases List.mem_cons.mp hc with rfl | hmem
        · refine ⟨?_, hpos⟩
          calc (trimChars ((s.drop start).take (computeEnd cfg s start - start))).length
              ≤ ((s.drop start).take (computeEnd cfg s start - start)).length :=
                trimChars_length_le _
            _ ≤ computeEnd cfg s start - start := by
                rw [List.length_take]; exact min_le_left _ _
            _ ≤ cfg.chunkSize := by
                have := computeEnd_le cfg s start; omega
        · exact ih _ c hmem
      · rw [if_neg hpos] at hc
        exact ih _ c hc
    · rw [if_neg hs] at hc
      simp at hc

/-- C6: no chunk returned by `splitTextIntoChunks` exceeds `chunkSize`
characters, and an input whose whitespace-normalized form has length at
most `chunkSize` yields exactly one chunk, the normalized text itself. -/
theorem c6_chunk_size (cfg : ChunkConfig) (text : List Char) :
    (∀ c ∈ splitTextIntoChunks cfg text, c.length ≤ cfg.chunkSize) ∧
    ((normalizeText text).length ≤ cfg.chunkSize →
      splitTextIntoChunks cfg text = [normalizeText text]) := by
  constructor
  · intro c hc
    unfold splitTextIntoChunks at hc
    by_cases hshort : (normalizeText text).length ≤ cfg.chunkSize
    · rw [if_pos hshort] at hc
      rcases List.mem_singleton.mp hc with rfl
      exact hshort
    · rw [if_neg hshort] at hc
      exact (splitLoop_chunk_facts cfg (normalizeText text) _ _ c hc).1
  · intro hshort
    unfold splitTextIntoChunks
    rw [if_pos hshort]

/-- C6 witness: the five-character input "ab cd" with the configured
`chunkSize = 500` yields the single normalized chunk. -/
theorem c6_chunk_size_witness :
    (normalizeText ['a', 'b', ' ', 'c', 'd']).length ≤ configChunk.chunkSize ∧
    splitTextIntoChunks configChunk ['a', 'b', ' ', 'c', 'd'] =
      [normalizeText ['a', 'b', ' ', 'c', 'd']] :=
  ⟨by decide, (c6_chunk_size configChunk ['a', 'b', ' ', 'c', 'd']).2 (by decide)⟩

/-- C3 counterexample: the whitespace-only input " " normalizes to the
empty string and is returned through the short-input fast path as the
single chunk `""` — an empty chunk, contradicting the claim that every
chunk is non-empty also for empty or whitespace-only input (the
empty-chunk drop only happens inside the sliding-window loop). -/
theorem c3_counterexample :
    splitTextIntoChunks configChunk [' '] = [[]] ∧
    ([] : List Char) ∈ splitTextIntoChunks configChunk [' '] ∧
    ¬ (∀ c ∈ splitTextIntoChunks configChunk [' '], c ≠ []) := by
  refine ⟨by decide, by decide, ?_⟩
  intro h
  exact h [] (by decide) rfl

/-- C3 (amended): for every input whose whitespace-normalized form is
non-empty, every chunk returned by `splitTextIntoChunks` is non-empty;
empty or whitespace-only input instead yields the one-element list
containing the empty chunk. -/
theorem c3_nonempty_chunks (cfg : ChunkConfig) (text : List Char)
    (h : normalizeText text ≠ []) :
    ∀ c ∈ splitTextIntoChunks cfg text, c ≠ [] := by
  intro c hc
  unfold splitTextIntoChunks at hc
  by_cases hshort : (normalizeText text).length ≤ cfg.chunkSize
  · rw [if_pos hshort] at hc
    rcases List.mem_singleton.mp hc with rfl
    exact h
  · rw [if_neg hshort] at hc
    have := (splitLoop_chunk_facts cfg (normalizeText text) _ _ c hc).2
    intro hnil
    rw [hnil] at this
    simp at this

/-- C3 witness: the input "hi" has a non-empty normalized form and all its
chunks are non-empty. -/
theorem c3_nonempty_chunks_witness :
    normalizeText ['h', 'i'] ≠ [] ∧
    ∀ c ∈ splitTextIntoChunks configChunk ['h', 'i'], c ≠ [] :=
  ⟨by decide, c3_nonempty_chunks configChunk ['h', 'i'] (by decide)⟩

/-- Helper for C7: the filter with its `seen` set agrees with the
spec-side recursion whenever the set holds exactly the signatures of the
chunks already processed. -/
theorem dedupGo_eq_spec (l : List ChunkSearchResult) :
    ∀ (seen : List (List Char)) (earlier : List ChunkSearchResult),
      (∀ k, k ∈ seen ↔ ∃ p ∈ earlier, signature p.content = k) →
      dedupGo seen l = dedupSpecGo earlier l := by
  induction l with
  | nil => intros; rfl
  | cons c rest ih =>
    intro seen earlier hinv
    have hinv2 : ∀ k, k ∈ signature c.content :: seen ↔
        ∃ p ∈ earlier ++ [c], signature p.content = k := by
      intro k
      constructor
      · intro hk
        rcases List.mem_cons.mp hk with rfl | hk2
        · exact ⟨c, by simp⟩
        · rcases (hinv k).mp hk2 with ⟨p, hp, hsig⟩
          exact ⟨p, by simp [hp], hsig⟩
      · intro ⟨p, hp, hsig⟩
        rcases List.mem_append.mp hp with hp2 | hp2
        · exact List.mem_cons_of_mem _ ((hinv k).mpr ⟨p, hp2, hsig⟩)
        · rcases List.mem_singleton.mp hp2 with rfl
          rw [← hsig]
          exact List.mem_cons_self _ _
    by_cases hk : signature c.content ∈ seen
    · rcases (hinv _).mp hk with ⟨p, hp, hsig⟩
      rw [dedupGo, if_pos hk, dedupSpecGo,
        if_neg (by push_neg; exact ⟨p, hp, hsig⟩)]
      apply ih
      intro k
      rw [hinv k]
      constructor
      · intro ⟨q, hq, hs⟩
        exact ⟨q, by simp [hq], hs⟩
      · intro ⟨q, hq, hs⟩
        rcases List.mem_append.mp hq with hq2 | hq2
        · exact ⟨q, hq2, hs⟩
        · rcases List.mem_singleton.mp hq2 with rfl
          exact ⟨p, hp, hsig.trans hs⟩
    · have hall : ∀ p ∈ earlier, signature p.content ≠ signature c.content := by
        intro p hp heq
        exact hk ((hinv _).mpr ⟨p, hp, heq⟩)
      rw [dedupGo, if_neg hk, dedupSpecGo, if_pos hall]
      rw [ih _ _ hinv2]

/-- Helper for C7: deduplication returns a sublist of its input (surviving
chunks keep their relative order and identity). -/
theorem dedupGo_sublist (l : List ChunkSearchResult) :
    ∀ seen, List.Sublist (dedupGo seen l) l := by
  induction l with
  | nil => intro seen; simp [dedupGo]
  | cons c rest ih =>
    intro seen
    rw [dedupGo]
    by_cases hk : signature c.content ∈ seen
    · rw [if_pos hk]
      exact (ih seen).cons c
    · rw [if_neg hk]
      exact (ih _).cons₂ c

/-- C7: `deduplicateChunks` keeps a chunk exactly when the first 100
characters of its normalized content differ from the signature of every
earlier chunk in the list (so two chunks with matching signatures collapse
to the earlier one, whatever the similarity ordering), and the surviving
chunks form a sublist of the input — order preserved. -/
theorem c7_dedup_signature (l : List ChunkSearchResult) :
    deduplicateChunks l = deduplicateChunksSpec l ∧
    List.Sublist (deduplicateChunks l) l :=
  ⟨dedupGo_eq_spec l [] [] (by simp), dedupGo_sublist l []⟩

/-- C8 counterexample: a set() at capacity does NOT evict when the
earliest-inserted key is the empty string (the key of the empty
embedding), because `if (oldestKey)` is falsy on `""`; the cache then
grows to 101 entries, contradicting the 100-entry bound. -/
theorem c8_counterexample :
    c8FullCache.entries.length = MAX_CACHE_SIZE ∧
    (setCachedResults 0 [1] [] c8FullCache).entries.length = MAX_CACHE_SIZE + 1 := by
  have hkey : getCacheKey [1] = [1000] := by
    show [jsRound ((1 : Rat) * 1000)] = [(1000 : Int)]
    norm_num [jsRound]
  constructor
  · decide
  · unfold setCachedResults
    rw [hkey]
    decide

/-- Helper for C8: `Map.set` grows the map by at most one entry. -/
theorem length_mapSet_le (m : List (CacheKey × CacheEntry)) (k : CacheKey)
    (v : CacheEntry) : (mapSet m k v).length ≤ m.length + 1 := by
  unfold mapSet
  by_cases h : m.any (fun p => p.1 = k)
  · simp [h]
  · simp [h]

/-- C8 (amended): when every stored key is nonempty (the key of every
non-empty embedding is nonempty), a set() keeps the cache at no more than
100 entries; a set() at capacity whose earliest-inserted key is nonempty
first evicts exactly that earliest entry; a get() for an entry stored more
than 5 minutes earlier misses and removes the entry, and a get() within
the TTL returns the stored results.  Without the nonempty-key proviso the
100-entry bound fails (see the counterexample). -/
theorem c8_cache_behavior (now : Int) (emb : List Rat)
    (results : List ChunkSearchResult) (st : CacheState) :
    (st.entries.length ≤ MAX_CACHE_SIZE →
      (∀ p ∈ st.entries, p.1 ≠ ([] : CacheKey)) →
      (setCachedResults now emb results st).entries.length ≤ MAX_CACHE_SIZE) ∧
    (∀ k0 e0, st.entries.head? = some (k0, e0) → MAX_CACHE_SIZE ≤ st.entries.length →
      k0 ≠ [] →
      (setCachedResults now emb results st).entries =
        mapSet (mapDelete st.entries k0) (getCacheKey emb) ⟨results, now⟩) ∧
    (∀ entry, mapGet st.entries (getCacheKey emb) = some entry →
      (CACHE_TTL_MS < now - entry.timestamp →
        getCachedResults now emb st = (none, ⟨mapDelete st.entries (getCacheKey emb)⟩)) ∧
      (now - entry.timestamp ≤ CACHE_TTL_MS →
        getCachedResults now emb st = (some entry.results, st))) := by
  refine ⟨?_, ?_, ?_⟩
  · intro hle hkeys
    by_cases hfull : MAX_CACHE_SIZE ≤ st.entries.length
    · rcases hst : st.entries with _ | ⟨⟨k0, e0⟩, tail⟩
      · rw [hst] at hfull
        simp [MAX_CACHE_SIZE] at hfull
      · have hk0 : k0 ≠ [] := by
          have := hkeys (k0, e0) (by rw [hst]; exact List.mem_cons_self _ _)
          exact this
        unfold setCachedResults
        rw [hst] at hfull ⊢
        simp only [if_pos hfull, List.head?_cons, if_neg hk0]
        have h1 : (mapDelete ((k0, e0) :: tail) k0).length ≤ tail.length := by
          unfold mapDelete
          rw [List.filter_cons]
          simp only [decide_not, decide_eq_true_eq]
          rw [if_neg (by simp)]
          exact List.length_filter_le _ _
        calc (mapSet (mapDelete ((k0, e0) :: tail) k0) (getCacheKey emb)
              ⟨results, now⟩).length
            ≤ (mapDelete ((k0, e0) :: tail) k0).length + 1 := length_mapSet_le _ _ _
          _ ≤ tail.length + 1 := by omega
          _ ≤ MAX_CACHE_SIZE := by
              rw [hst] at hle
              simp only [List.length_cons] at hle
              omega
    · unfold setCachedResults
      rw [if_neg hfull]
      calc (mapSet st.entries (getCacheKey emb) ⟨results, now⟩).length
          ≤ st.entries.length + 1 := length_mapSet_le _ _ _
        _ ≤ MAX_CACHE_SIZE := by omega
  · intro k0 e0 hhead hfull hk0
    unfold setCachedResults
    simp only [if_pos hfull, hhead, if_neg hk0]
  · intro entry hget
    constructor
    · intro httl
      unfold getCachedResults
      simp only [hget]
      rw [if_pos httl]
    · intro httl
      unfold getCachedResults
      simp only [hget]
      rw [if_neg (by omega)]

/-- C8 witness: concrete instances of all three amended behaviors — a set
on a small all-nonempty-key cache stays within capacity; a set at capacity
with nonempty earliest key evicts it; an expired get misses with removal
and a fresh get returns the stored results. -/
theorem c8_cache_behavior_witness :
    (setCachedResults 0 [] [] ⟨[([7], ⟨[], 0⟩)]⟩).entries.length ≤ MAX_CACHE_SIZE ∧
    (setCachedResults 0 [] [] c8FullCache2).entries =
      mapSet (mapDelete c8FullCache2.entries [0]) (getCacheKey []) ⟨[], 0⟩ ∧
    getCachedResults 400000 [] ⟨[([], ⟨[], 0⟩)]⟩ =
      (none, ⟨mapDelete [([], ⟨[], 0⟩)] (getCacheKey [])⟩) ∧
    getCachedResults 1000 [] ⟨[([], ⟨[], 0⟩)]⟩ = (some [], ⟨[([], ⟨[], 0⟩)]⟩) :=
  ⟨(c8_cache_behavior 0 [] [] ⟨[([7], ⟨[], 0⟩)]⟩).1 (by decide) (by decide),
    (c8_cache_behavior 0 [] [] c8FullCache2).2.1 [0] ⟨[], 0⟩ (by decide) (by decide)
      (by decide),
    ((c8_cache_behavior 400000 [] [] ⟨[([], ⟨[], 0⟩)]⟩).2.2 ⟨[], 0⟩ (by decide)).1
      (by decide),
    ((c8_cache_behavior 1000 [] [] ⟨[([], ⟨[], 0⟩)]⟩).2.2 ⟨[], 0⟩ (by decide)).2
      (by decide)⟩

/-- C10: when the query text yields at least one usable lexical token,
`searchRelevantChunksHybrid` leaves the cache state unchanged (no write)
and its results do not depend on the cache state (no read), whatever the
options — only the no-token fallback path delegates to the vector search,
which may touch the cache. -/
theorem c10_hybrid_cache_frame (hybridRows : List HybridRow)
    (vectorRows : List ChunkSearchResult) (now : Int) (queryEmbedding : List Rat)
    (queryText : List Char) (opts : HybridSearchOptions) (st st' : CacheState)
    (h : extractSearchTerms queryText ≠ []) :
    (searchRelevantChunksHybrid hybridRows vectorRows now queryEmbedding queryText
        opts st).2 = st ∧
    (searchRelevantChunksHybrid hybridRows vectorRows now queryEmbedding queryText
        opts st).1 =
      (searchRelevantChunksHybrid hybridRows vectorRows now queryEmbedding queryText
        opts st').1 := by
  refine ⟨?_, ?_⟩ <;> simp only [searchRelevantChunksHybrid, if_neg h]

/-- C10 witness: the query "hello" has a usable token; the hybrid search
leaves a concrete one-entry cache unchanged and returns the same results
as with an empty cache. -/
theorem c10_hybrid_cache_frame_witness :
    extractSearchTerms ['h', 'e', 'l', 'l', 'o'] ≠ [] ∧
    (searchRelevantChunksHybrid [] [] 0 [] ['h', 'e', 'l', 'l', 'o']
        ⟨⟨8, 0, none, none, true⟩, 1, 1⟩ ⟨[([], ⟨[], 0⟩)]⟩).2 = ⟨[([], ⟨[], 0⟩)]⟩ ∧
    (searchRelevantChunksHybrid [] [] 0 [] ['h', 'e', 'l', 'l', 'o']
        ⟨⟨8, 0, none, none, true⟩, 1, 1⟩ ⟨[([], ⟨[], 0⟩)]⟩).1 =
      (searchRelevantChunksHybrid [] [] 0 [] ['h', 'e', 'l', 'l', 'o']
        ⟨⟨8, 0, none, none, true⟩, 1, 1⟩ ⟨[]⟩).1 :=
  ⟨by decide,
    (c10_hybrid_cache_frame [] [] 0 [] ['h', 'e', 'l', 'l', 'o']
      ⟨⟨8, 0, none, none, true⟩, 1, 1⟩ ⟨[([], ⟨[], 0⟩)]⟩ ⟨[]⟩ (by decide)).1,
    (c10_hybrid_cache_frame [] [] 0 [] ['h', 'e', 'l', 'l', 'o']
      ⟨⟨8, 0, none, none, true⟩, 1, 1⟩ ⟨[([], ⟨[], 0⟩)]⟩ ⟨[]⟩ (by decide)).2⟩

/-- Helper for C9: keeping only user/assistant roles is the same as
filtering out system-role messages. -/
theorem role_filter_eq (m : ChatMessage) :
    (decide (m.role = Role.user) || decide (m.role = Role.assistant)) =
      decide (¬ m.role = Role.system) := by
  cases hm : m.role <;> simp

/-- Helper for C9: the last element of a nonempty-tail concatenation. -/
theorem getLast?_cons_append_singleton {α : Type} (x : α) (l : List α) (a : α) :
    (x :: (l ++ [a])).getLast? = some a := by
  rw [show x :: (l ++ [a]) = (x :: l) ++ [a] from rfl]
  exact List.getLast?_concat _

/-- C9: with zero context chunks, `buildPrompt` emits a first system
message consisting of the resolved system prompt plus the no-context
fallback instruction (and nothing else — no context block); with N > 0
chunks the system message carries exactly N source-attributed blocks in
input order, each showing `round(similarity*100)`, joined by the visible
separator; the prior turns follow in order with system-role messages
filtered out; the latest user message is always the last message. -/
theorem c9_build_prompt (systemPrompt : Option String)
    (contextChunks : List ChunkSearchResult) (messages : List ChatMessage)
    (latest : String) :
    (contextChunks = [] →
      buildPrompt systemPrompt contextChunks messages latest =
        ⟨.system, resolveSystemPrompt systemPrompt ++ "\n\n" ++ NO_CONTEXT_INSTRUCTIONS⟩ ::
          ((messages.filter (fun m => ¬ m.role = .system)).map
            (fun m => (⟨m.role, m.content⟩ : LLMMessage)) ++ [⟨.user, latest⟩])) ∧
    (contextChunks ≠ [] →
      (contextChunks.enum.map (fun p => contextBlock p.1 p.2)).length =
          contextChunks.length ∧
      buildPrompt systemPrompt contextChunks messages latest =
        ⟨.system, resolveSystemPrompt systemPrompt ++ "\n\n" ++ RAG_INSTRUCTIONS
            ++ "\n\nCONTEXT FROM KNOWLEDGE BASE:\n---\n"
            ++ String.intercalate "\n\n---\n\n"
              (contextChunks.enum.map (fun p => contextBlock p.1 p.2))
            ++ "\n---"⟩ ::
          ((messages.filter (fun m => ¬ m.role = .system)).map
            (fun m => (⟨m.role, m.content⟩ : LLMMessage)) ++ [⟨.user, latest⟩])) ∧
    (buildPrompt systemPrompt contextChunks messages latest).getLast? =
      some ⟨.user, latest⟩ := by
  have hfil : messages.filter (fun m => m.role = Role.user || m.role = Role.assistant) =
      messages.filter (fun m => ¬ m.role = Role.system) :=
    List.filter_congr (fun m _ => role_filter_eq m)
  refine ⟨?_, ?_, ?_⟩
  · intro h
    subst h
    simp [buildPrompt, hfil]
  · intro h
    have hlen : 0 < contextChunks.length := List.length_pos.mpr h
    constructor
    · rw [List.length_map, List.enum_length]
    · simp [buildPrompt, hfil, if_pos hlen, formatContextWithSources]
  · exact getLast?_cons_append_singleton _ _ _

/-- C9 witness: a concrete no-context prompt (system message plus filtered
history plus latest user message) and a concrete one-chunk prompt with
exactly one attributed block. -/
theorem c9_build_prompt_witness :
    buildPrompt none [] [⟨Role.system, "x"⟩, ⟨Role.user, "a"⟩] "hi" =
      ⟨Role.system, resolveSystemPrompt none ++ "\n\n" ++ NO_CONTEXT_INSTRUCTIONS⟩ ::
        ((([⟨Role.system, "x"⟩, ⟨Role.user, "a"⟩] : List ChatMessage).filter
            (fun m => ¬ m.role = Role.system)).map
          (fun m => (⟨m.role, m.content⟩ : LLMMessage)) ++ [⟨Role.user, "hi"⟩]) ∧
    ((([(⟨"1", "c", 1/2, "d", "T"⟩ : ChunkSearchResult)].enum.map
        (fun p => contextBlock p.1 p.2)).length = 1) ∧
      buildPrompt none [⟨"1", "c", 1/2, "d", "T"⟩] [] "q" =
        ⟨Role.system, resolveSystemPrompt none ++ "\n\n" ++ RAG_INSTRUCTIONS
            ++ "\n\nCONTEXT FROM KNOWLEDGE BASE:\n---\n"
            ++ String.intercalate "\n\n---\n\n"
              ([(⟨"1", "c", 1/2, "d", "T"⟩ : ChunkSearchResult)].enum.map
                (fun p => contextBlock p.1 p.2))
            ++ "\n---"⟩ ::
          ((([] : List ChatMessage).filter (fun m => ¬ m.role = Role.system)).map
            (fun m => (⟨m.role, m.content⟩ : LLMMessage)) ++ [⟨Role.user, "q"⟩])) :=
  ⟨(c9_build_prompt none [] [⟨Role.system, "x"⟩, ⟨Role.user, "a"⟩] "hi").1 rfl,
    (c9_build_prompt none [⟨"1", "c", 1/2, "d", "T"⟩] [] "q").2.1 (by simp)⟩

end VsBuddy
